import Mathlib

/-!
Verification of the GirchiFin transaction-classification pipeline.

This file gives a shallow embedding of the classification core of the
repository (src/main.py, src/map_transactions.py, src/config.py) and proves
or refutes the frozen claims about it.  Records are embedded as a structure
of optional fields (pandas NaN is `none`); each pandas column operation is
translated to the corresponding per-record function mapped over a list.
-/

namespace GirchiFin

/-! ## Python string primitives used by the pipeline -/

/-- Python str(x) applied to a possibly-NaN cell: `str(nan)` is the string
"nan"; this is what pandas `astype(str)` produces per cell. -/
def pyStr : Option String → String
  | none => "nan"
  | some s => s

/-- Lower-casing of one character as Python `str.lower()` does on the
alphabets occurring in this repository: ASCII letters and Georgian Mtavruli
(U+1C90..U+1CBA, U+1CBD..U+1CBF map to Mkhedruli by subtracting 0xBC0).
Other characters are unchanged. -/
def pyLowerChar (c : Char) : Char :=
  if 65 ≤ c.toNat && c.toNat ≤ 90 then
    Char.ofNat (c.toNat + 32)
  else if (0x1C90 ≤ c.toNat && c.toNat ≤ 0x1CBA) || (0x1CBD ≤ c.toNat && c.toNat ≤ 0x1CBF) then
    Char.ofNat (c.toNat - 0xBC0)
  else c

/-- Python `str.lower()` on the alphabets used by the repository. -/
def pyLower (s : String) : String :=
  String.mk (s.data.map pyLowerChar)

/-- Does the literal pattern match at the head of the text? -/
def matchLit : List Char → List Char → Bool
  | [], _ => true
  | _ :: _, [] => false
  | p :: ps, c :: cs => p == c && matchLit ps cs

/-- Literal substring containment (`pat in s` in Python, or a regex with no
metacharacters as produced by `re.escape`). -/
def containsLit (pat : List Char) : List Char → Bool
  | [] => pat.isEmpty
  | c :: cs => matchLit pat (c :: cs) || containsLit pat cs

/-- Does the pattern match at the head of the text, where the regex
metacharacter dot matches any character except a newline? -/
def matchDot : List Char → List Char → Bool
  | [], _ => true
  | _ :: _, [] => false
  | p :: ps, c :: cs => ((p == '.' && c != '\n') || p == c) && matchDot ps cs

/-- Regex containment for a pattern whose only metacharacter is the dot
(pandas `str.contains` compiles its argument as a regex, so the unescaped
keyword 'beta.girchi' matches any character at the dot). -/
def containsDot (pat : List Char) : List Char → Bool
  | [] => pat.isEmpty
  | c :: cs => matchDot pat (c :: cs) || containsDot pat cs

/-- Case-insensitive literal containment: pandas
`str.contains(keyword, case=False)` for a keyword with no metacharacters. -/
def strContainsCI (keyword s : String) : Bool :=
  containsLit (pyLower keyword).data (pyLower s).data

/-- Case-insensitive containment with the dot treated as a regex wildcard. -/
def strContainsDotCI (keyword s : String) : Bool :=
  containsDot (pyLower keyword).data (pyLower s).data

/-- Pandas `series.str.contains(keyword, case=False, na=False)` on one cell:
a NaN cell never matches. -/
def optContainsCI (keyword : String) : Option String → Bool
  | none => false
  | some s => strContainsCI keyword s

/-! ## Data model -/

/-- Pandas float64 amounts are modelled as rationals; the pipeline only ever
compares them for equality with decimal literals and with zero. -/
abbrev Amount := ℚ

/-- One row of the consolidated DataFrame, with the columns the
classification core reads or writes.  A `none` field is a NaN cell. -/
structure Record where
  sourceFile : String
  description : Option String
  paidOut : Option Amount
  paidIn : Option Amount
  partnerAccount : Option String
  partnerName : Option String
  sourceAccount : Option String
  category : Option String
  subDescription : Option String
  internalMap : Option String
  deriving DecidableEq

/-- The internal account registry from config.py (INTERNAL_ACCOUNTS). -/
def INTERNAL_ACCOUNTS : List String :=
  [ "GE59BG0000000533997843"
  , "GE21TB7772545167800001"
  , "GE78BG0000000604676551"
  , "GE60TB7791136080100005"
  , "GE04TB7772536080100003"
  , "GE74BG0000000101146034"
  , "GE83TB7398736010100052" ]

/-! ## Internal-transfer resolver (map_transactions.map_internal_transfers)

The Python function reads the 'Source Account' column if it exists and
otherwise fills the column with the empty string
(`df['Source Account'].astype(str) if 'Source Account' in df.columns else ''`);
the Boolean `hasSourceCol` records which branch applies to the frame. -/

/-- Per-record body of `map_internal_transfers`. -/
def mapInternalTransfersR (registry : List String) (hasSourceCol : Bool)
    (r : Record) : Record :=
  let pa := pyStr r.partnerAccount
  let sa := if hasSourceCol then pyStr r.sourceAccount else ""
  let r1 : Record :=
    { r with
      partnerAccount := some pa
      sourceAccount := some sa
      internalMap :=
        some (if registry.contains pa then "Internal Transfer" else "External") }
  if registry.contains sa && registry.contains pa
      && pa != "nan" && pa != "" && sa != pa then
    { r1 with category := some "კონვერტაცია"
              subDescription := some "Internal account transfer" }
  else r1

/-- map_transactions.map_internal_transfers applied to the whole frame. -/
def map_internal_transfers (registry : List String) (hasSourceCol : Bool)
    (rs : List Record) : List Record :=
  rs.map (mapInternalTransfersR registry hasSourceCol)

/-! ## Deterministic rule chain (map_transactions.apply_*_rule)

Every rule computes an "uncategorized" mask (`category` cell is NaN), ANDs it
with a rule-specific predicate, and writes a fixed category and
sub-description into the selected rows.  The shared shape is `applyRuleR`. -/

/-- One rule of the chain: a predicate over the pre-rule record, the fixed
category label and the fixed sub-description tag it writes. -/
structure SimpleRule where
  pred : Record → Bool
  cat : String
  sub : String

/-- Per-record application of one null-guarded rule. -/
def applyRuleR (t : SimpleRule) (r : Record) : Record :=
  if r.category.isNone && t.pred r then
    { r with category := some t.cat, subDescription := some t.sub }
  else r

/-- BT BOG mask of apply_bt_specific_rules: source file in ['BT BOG.xlsx'],
Paid In equal to 175.0, Paid In positive, Paid Out (NaN filled with 0)
zero.  A NaN Paid In fails both comparisons, as in pandas. -/
def btBogPred (r : Record) : Bool :=
  ["BT BOG.xlsx"].contains r.sourceFile
    && r.paidIn == some (175 : Amount)
    && (match r.paidIn with | some x => decide (0 < x) | none => false)
    && (r.paidOut.getD 0) == 0

/-- BT TBC mask of apply_bt_specific_rules: source file in
['BT TBC GEL.xlsx'], Paid In in [175.0, 176.0, 200.0], positive, Paid Out
(NaN filled with 0) zero. -/
def btTbcPred (r : Record) : Bool :=
  ["BT TBC GEL.xlsx"].contains r.sourceFile
    && [some (175 : Amount), some 176, some 200].contains r.paidIn
    && (match r.paidIn with | some x => decide (0 < x) | none => false)
    && (r.paidOut.getD 0) == 0

def btBogRule : SimpleRule :=
  ⟨btBogPred, "ბთ", "BT BOG 175 GEL income rule"⟩

def btTbcRule : SimpleRule :=
  ⟨btTbcPred, "ბთ", "BT TBC specific amount income rule"⟩

/-- Per-record body of apply_bt_specific_rules: both masks are computed from
the same upfront uncategorized mask and then applied one after the other. -/
def applyBtSpecificRulesR (r : Record) : Record :=
  let uncategorized := r.category.isNone
  let bog := uncategorized && btBogPred r
  let tbc := uncategorized && btTbcPred r
  let r1 :=
    if bog then
      { r with category := some "ბთ"
               subDescription := some "BT BOG 175 GEL income rule" }
    else r
  if tbc then
    { r1 with category := some "ბთ"
              subDescription := some "BT TBC specific amount income rule" }
  else r1

def apply_bt_specific_rules (rs : List Record) : List Record :=
  rs.map applyBtSpecificRulesR

/-- Rule of apply_beta_girchi_rule.  The keyword 'beta.girchi' is passed to
pandas str.contains unescaped, so its dot is a regex wildcard. -/
def betaGirchiRule : SimpleRule :=
  ⟨ fun r =>
      match r.description with
      | none => false
      | some s => strContainsDotCI "beta.girchi" s
  , "შემოწირულობა", "beta.girchi donation rule" ⟩

def apply_beta_girchi_rule (rs : List Record) : List Record :=
  rs.map (applyRuleR betaGirchiRule)

/-- Name list of apply_specific_people_gatanili_rule. -/
def gataniliTargetNames : List String :=
  ["რაქვიაშვილი", "მეგრელიშვილი", "ჰერმან", "იაგო ხვიჩია", "ნარტყოშვილი"]

/-- Rule of apply_specific_people_gatanili_rule: the description and partner
name series are first passed through astype(str) (NaN becomes "nan"), then
matched case-insensitively against the escaped alternation of the names. -/
def specificPeopleRule : SimpleRule :=
  ⟨ fun r =>
      gataniliTargetNames.any (fun n => strContainsCI n (pyStr r.description))
        || gataniliTargetNames.any (fun n => strContainsCI n (pyStr r.partnerName))
  , "გატანილი თანხა", "Name-based mapping rule" ⟩

def apply_specific_people_gatanili_rule (rs : List Record) : List Record :=
  rs.map (applyRuleR specificPeopleRule)

/-- Name list of apply_salary_name_mapping_rule. -/
def salaryNames : List String :=
  [ "ლევან ჯგერენაია", "ნუგზარ ტაბატაძე", "რევაზი სუთიძე", "მაყვალა გიორგაძე"
  , "იზა ნადარეიშვილი", "მარიკა ვერულიძე", "ლიზი შეწირული", "გიორგი პაჭიკაშვილი"
  , "ვაკო თენეიშვილი", "თედო ჯაბუა", "ანა ნოდია", "გიორგი სოლოღაშვილი"
  , "რუსუდანი აბუაშვილი", "სიმონ ღარიბაშვილი", "ავთანდილ ლაბაძე", "ეკა ონიანი"
  , "ბორის სოლომონია", "ვახტანგ თენეიშვილი" ]

/-- Rule of apply_salary_name_mapping_rule (same astype(str) + alternation
shape as the previous rule, over the salary name list). -/
def salaryNameRule : SimpleRule :=
  ⟨ fun r =>
      salaryNames.any (fun n => strContainsCI n (pyStr r.description))
        || salaryNames.any (fun n => strContainsCI n (pyStr r.partnerName))
  , "ხელფასი", "Salary name mapping rule" ⟩

def apply_salary_name_mapping_rule (rs : List Record) : List Record :=
  rs.map (applyRuleR salaryNameRule)

/-- Rule of apply_rezervis_tanxa_rule. -/
def rezervisRule : SimpleRule :=
  ⟨ fun r => optContainsCI "რეზერვის თანხა" r.description
  , "შემოწირულობა", "რეზერვის თანხა donation rule" ⟩

def apply_rezervis_tanxa_rule (rs : List Record) : List Record :=
  rs.map (applyRuleR rezervisRule)

/-- Rule of apply_kkk_salary_rule. -/
def kkkRule : SimpleRule :=
  ⟨ fun r => optContainsCI "კკკ" r.description
  , "ხელფასი", "კკკ salary rule" ⟩

def apply_kkk_salary_rule (rs : List Record) : List Record :=
  rs.map (applyRuleR kkkRule)

/-- Rule of apply_sakomis_commission_rule. -/
def sakomisRule : SimpleRule :=
  ⟨ fun r => optContainsCI "საკომის" r.description
  , "საკომისიო", "საკომის commission rule" ⟩

def apply_sakomis_commission_rule (rs : List Record) : List Record :=
  rs.map (applyRuleR sakomisRule)

/-- Rule of apply_facebook_ads_rule. -/
def facebookRule : SimpleRule :=
  ⟨ fun r => optContainsCI "FACEBK" r.description
  , "რეკლამა", "FACEBK ads rule" ⟩

def apply_facebook_ads_rule (rs : List Record) : List Record :=
  rs.map (applyRuleR facebookRule)

/-- Rule of apply_konvertacia_rule. -/
def konvertaciaRule : SimpleRule :=
  ⟨ fun r => optContainsCI "კონვერტაცია" r.description
  , "კონვერტაცია", "კონვერტაცია keyword rule" ⟩

def apply_konvertacia_rule (rs : List Record) : List Record :=
  rs.map (applyRuleR konvertaciaRule)

/-- Keyword list of apply_server_services_rule (each keyword is re.escape'd
in the source, so all are literal). -/
def serviceKeywords : List String :=
  [ "BUZZSPROUT", "Mailchimp", "DIGITALOCEAN.COM", "Google", "CLOUDFLARE"
  , "VEED", "2CO.COM", "WWW.VMIX.COM", "TALLY.SO", "ZOOM.COM" ]

/-- Rule of apply_server_services_rule. -/
def serverRule : SimpleRule :=
  ⟨ fun r =>
      match r.description with
      | none => false
      | some s => serviceKeywords.any (fun k => strContainsCI k s)
  , "სერვერები", "Server/digital services rule" ⟩

def apply_server_services_rule (rs : List Record) : List Record :=
  rs.map (applyRuleR serverRule)

/-- Rule of apply_sapensio_salary_rule. -/
def sapensioRule : SimpleRule :=
  ⟨ fun r => optContainsCI "საპენსიო" r.description
  , "ხელფასი", "საპენსიო salary rule" ⟩

def apply_sapensio_salary_rule (rs : List Record) : List Record :=
  rs.map (applyRuleR sapensioRule)

/-- Rule of apply_montajis_safasuri_rule. -/
def montajisRule : SimpleRule :=
  ⟨ fun r => optContainsCI "მონტაჟის საფასური" r.description
  , "ხელფასი", "მონტაჟის საფასური salary rule" ⟩

def apply_montajis_safasuri_rule (rs : List Record) : List Record :=
  rs.map (applyRuleR montajisRule)

/-- Rule of apply_merchi_keyword_rule. -/
def merchiRule : SimpleRule :=
  ⟨ fun r => optContainsCI "მერჩი" r.description
  , "მერჩი", "მერჩი keyword rule" ⟩

def apply_merchi_keyword_rule (rs : List Record) : List Record :=
  rs.map (applyRuleR merchiRule)

/-- Rule of apply_dazgveva_rule. -/
def dazgvevaRule : SimpleRule :=
  ⟨ fun r => optContainsCI "დაზღვ" r.description
  , "დაზღვევა", "დაზღვ insurance rule" ⟩

def apply_dazgveva_rule (rs : List Record) : List Record :=
  rs.map (applyRuleR dazgvevaRule)

/-- Rule of apply_mevafinansebbts_rule. -/
def mevafinansebbtsRule : SimpleRule :=
  ⟨ fun r => optContainsCI "mevafinansebbts" r.description
  , "შემოწირულობა", "mevafinansebbts donation rule" ⟩

def apply_mevafinansebbts_rule (rs : List Record) : List Record :=
  rs.map (applyRuleR mevafinansebbtsRule)

/-- Company list of apply_utility_companies_rule. -/
def utilityCompanies : List String :=
  ["მაგთი", "სილქ"]

/-- Rule of apply_utility_companies_rule: matches the Partner Name series
only, after astype(str). -/
def utilityRule : SimpleRule :=
  ⟨ fun r => utilityCompanies.any (fun n => strContainsCI n (pyStr r.partnerName))
  , "კომუნალური", "Utility company rule" ⟩

def apply_utility_companies_rule (rs : List Record) : List Record :=
  rs.map (applyRuleR utilityRule)

/-! ## The chain in the orchestrator's order (main.py lines 86-132) -/

/-- The sixteen rule passes in the exact order main applies them. -/
def chainFuns : List (List Record → List Record) :=
  [ apply_bt_specific_rules
  , apply_beta_girchi_rule
  , apply_specific_people_gatanili_rule
  , apply_salary_name_mapping_rule
  , apply_rezervis_tanxa_rule
  , apply_kkk_salary_rule
  , apply_sakomis_commission_rule
  , apply_facebook_ads_rule
  , apply_konvertacia_rule
  , apply_server_services_rule
  , apply_sapensio_salary_rule
  , apply_montajis_safasuri_rule
  , apply_merchi_keyword_rule
  , apply_dazgveva_rule
  , apply_mevafinansebbts_rule
  , apply_utility_companies_rule ]

/-- The full deterministic chain over the frame. -/
def runChain (rs : List Record) : List Record :=
  chainFuns.foldl (fun acc f => f acc) rs

/-- The per-record functions of the sixteen passes, in the same order. -/
def recordStageFuns : List (Record → Record) :=
  [ applyBtSpecificRulesR
  , applyRuleR betaGirchiRule
  , applyRuleR specificPeopleRule
  , applyRuleR salaryNameRule
  , applyRuleR rezervisRule
  , applyRuleR kkkRule
  , applyRuleR sakomisRule
  , applyRuleR facebookRule
  , applyRuleR konvertaciaRule
  , applyRuleR serverRule
  , applyRuleR sapensioRule
  , applyRuleR montajisRule
  , applyRuleR merchiRule
  , applyRuleR dazgvevaRule
  , applyRuleR mevafinansebbtsRule
  , applyRuleR utilityRule ]

/-- The full deterministic chain on one record. -/
def runChainR (r : Record) : Record :=
  recordStageFuns.foldl (fun r g => g r) r

/-- The chain flattened into seventeen null-guarded simple rules, in
execution order (the BT pass contributes its two disjoint masks). -/
def ruleTable : List SimpleRule :=
  [ btBogRule
  , btTbcRule
  , betaGirchiRule
  , specificPeopleRule
  , salaryNameRule
  , rezervisRule
  , kkkRule
  , sakomisRule
  , facebookRule
  , konvertaciaRule
  , serverRule
  , sapensioRule
  , montajisRule
  , merchiRule
  , dazgvevaRule
  , mevafinansebbtsRule
  , utilityRule ]

/-! ## Fallback classifier adapter (map_transactions.get_ai_categorization
and main.py lines 134-147)

The external service call is modelled by its observable outcomes: the
request may raise in both the v1-client and the legacy-client path (only the
v1 path is inside a try/except, so in that case the exception escapes
get_ai_categorization), or it yields response content which json.loads
either rejects, or parses to a non-dict JSON value, or parses to a dict in
which the 'category' and 'subcategory' keys are each present or absent. -/

/-- Outcome of one external categorization request for a description. -/
inductive SvcResponse where
  | fails
  | unparseable
  | jsonNonDict
  | jsonDict (category : Option String) (subcategory : Option String)
  deriving DecidableEq

/-- The parsed value get_ai_categorization hands back to main: a dict
(only its 'category'/'subcategory' keys matter downstream) or any other
JSON value, which main's isinstance(x, dict) check rejects. -/
inductive PyJson where
  | dict (category : Option String) (subcategory : Option String)
  | nonDict
  deriving DecidableEq

/-- The value returned on an empty description and on unparseable JSON. -/
def defaultJson : PyJson :=
  .dict (some "Uncategorized") (some "")

/-- map_transactions.get_ai_categorization.  The result carries the number
of service invocations made (0 or 1); `Except.error` is a Python exception
escaping the function. -/
def get_ai_categorization (svc : String → SvcResponse)
    (description : Option String) : Except Unit (PyJson × Nat) :=
  match description with
  | none => .ok (defaultJson, 0)
  | some d =>
    if d = "" then .ok (defaultJson, 0)
    else
      match svc d with
      | .fails => .error ()
      | .unparseable => .ok (defaultJson, 1)
      | .jsonNonDict => .ok (.nonDict, 1)
      | .jsonDict c s => .ok (.dict c s, 1)

/-- First-occurrence de-duplication, as pandas Series.unique() returns
values in order of first appearance. -/
def uniqFirstAux (seen : List String) : List String → List String
  | [] => []
  | d :: rest =>
    if seen.contains d then uniqFirstAux seen rest
    else d :: uniqFirstAux (d :: seen) rest

/-- main.py line 141: the distinct non-NaN descriptions of the rows whose
category cell is still NaN. -/
def uniqueDescs (rs : List Record) : List String :=
  uniqFirstAux []
    ((rs.filter (fun r => r.category.isNone)).filterMap (fun r => r.description))

/-- main.py line 142: the dict comprehension building ai_mappings, calling
get_ai_categorization once per distinct description, in order; a raised
exception aborts the comprehension.  Also returns the total number of
service invocations. -/
def buildMappings (svc : String → SvcResponse) :
    List String → Except Unit (List (String × PyJson) × Nat)
  | [] => .ok ([], 0)
  | d :: rest =>
    match get_ai_categorization svc (some d) with
    | .error () => .error ()
    | .ok (j, n) =>
      match buildMappings svc rest with
      | .error () => .error ()
      | .ok (m, total) => .ok ((d, j) :: m, n + total)

/-- Dictionary lookup in the ai_mappings association list. -/
def lookupJson (m : List (String × PyJson)) (d : String) : Option PyJson :=
  (m.find? (fun p => p.1 == d)).map (fun p => p.2)

/-- main.py lines 144-147 on one row: rows outside the uncategorized mask
are untouched; for the rest, the row's description is looked up in
ai_mappings (a NaN description or a missing key yields NaN), then
'D) Mapped Description' is set to x.get('category') if x is a dict else
'Uncategorized', and 'E) Sub-description' to x.get('subcategory') if x is a
dict else ''. -/
def applyAiR (m : List (String × PyJson)) (r : Record) : Record :=
  if r.category.isNone then
    match r.description.bind (lookupJson m) with
    | some (.dict c s) => { r with category := c, subDescription := s }
    | some .nonDict =>
      { r with category := some "Uncategorized", subDescription := some "" }
    | none =>
      { r with category := some "Uncategorized", subDescription := some "" }
  else r

/-- The whole fallback stage of main.py (lines 134-147), with its total
service invocation count. -/
def aiStage (svc : String → SvcResponse) (rs : List Record) :
    Except Unit (List Record × Nat) :=
  match buildMappings svc (uniqueDescs rs) with
  | .error () => .error ()
  | .ok (m, n) => .ok (rs.map (applyAiR m), n)

/-! ## Restriction post-filter
(map_transactions.apply_gatanili_tanxa_restrictions) -/

/-- The approved recipient names of the restriction filter. -/
def approvedNames : List String :=
  [ "ვახტანგი მეგრელიშვილი"
  , "ალექსანდრე რაქვიაშვილი"
  , "იაგო ხვიჩია"
  , "ჰერმან საბო" ]

/-- Per-record body of apply_gatanili_tanxa_restrictions: for a row
currently categorized 'გატანილი თანხა', lower-case str(description) and keep
the category only if some approved name (lower-cased) occurs in it as a
plain substring; otherwise demote to 'სხვა' with the fixed sub-tag. -/
def gataniliRestrictR (r : Record) : Record :=
  if r.category == some "გატანილი თანხა" then
    let d := pyLower (pyStr r.description)
    if approvedNames.any (fun n => containsLit (pyLower n).data d.data) then r
    else { r with category := some "სხვა"
                  subDescription := some "გატანილი თანხა restriction applied" }
  else r

/-- map_transactions.apply_gatanili_tanxa_restrictions over the frame. -/
def apply_gatanili_tanxa_restrictions (rs : List Record) : List Record :=
  rs.map gataniliRestrictR

/-! ## Pipeline orchestrator (main.py lines 82-150)

main runs: map_internal_transfers, the sixteen rule passes, the AI fallback
stage, and apply_gatanili_tanxa_restrictions, in that order. -/

/-- The classification pipeline of main.py from line 82 to line 150.
`Except.error` is an unhandled exception aborting the run. -/
def runPipeline (svc : String → SvcResponse) (hasSourceCol : Bool)
    (rs : List Record) : Except Unit (List Record) :=
  let rs1 := map_internal_transfers INTERNAL_ACCOUNTS hasSourceCol rs
  let rs2 := runChain rs1
  match aiStage svc rs2 with
  | .error () => .error ()
  | .ok (rs3, _) => .ok (apply_gatanili_tanxa_restrictions rs3)

/-- Modelled from the spec: the stage order the specification prescribes in
section 4.5, with the Restriction Post-Filter (4.3) before the fallback
classifier (4.4).  Written only to compare with `runPipeline`, which embeds
the order main.py actually uses. -/
def specOrderedPipeline (svc : String → SvcResponse) (hasSourceCol : Bool)
    (rs : List Record) : Except Unit (List Record) :=
  let rs1 := map_internal_transfers INTERNAL_ACCOUNTS hasSourceCol rs
  let rs2 := runChain rs1
  let rs3 := apply_gatanili_tanxa_restrictions rs2
  match aiStage svc rs3 with
  | .error () => .error ()
  | .ok (rs4, _) => .ok rs4

/-! ## Concrete inputs used by counterexamples and witnesses -/

/-- A row with every optional cell NaN and a neutral source tag. -/
def blankRecord : Record :=
  { sourceFile := "x", description := none, paidOut := none, paidIn := none
  , partnerAccount := none, partnerName := none, sourceAccount := none
  , category := none, subDescription := none, internalMap := none }

/-- A service that always answers with a well-formed dict carrying the
restricted category. -/
def svcGatanili : String → SvcResponse :=
  fun _ => .jsonDict (some "გატანილი თანხა") (some "y")

/-- A row whose description matches no deterministic rule. -/
def recPlain : Record :=
  { blankRecord with description := some "x" }

/-- A service whose response parses as a JSON dict lacking both keys. -/
def svcEmptyDict : String → SvcResponse :=
  fun _ => .jsonDict none none

/-- A row with description "d", matching no deterministic rule. -/
def recD : Record :=
  { blankRecord with description := some "d" }

/-- A service whose response content always fails json.loads. -/
def svcUnparseable : String → SvcResponse :=
  fun _ => .unparseable

/-- A service for which both client call paths raise. -/
def svcFails : String → SvcResponse :=
  fun _ => .fails

/-- A row whose partner account is a registry member surrounded by a
leading space. -/
def recSpacedAccount : Record :=
  { blankRecord with partnerAccount := some " GE59BG0000000533997843" }

/-- A row matching both the FACEBK rule and the later კონვერტაცია rule. -/
def recTwoRules : Record :=
  { blankRecord with description := some "FACEBK კონვერტაცია" }

/-- A row whose description is the empty string (non-null). -/
def recEmptyDesc : Record :=
  { blankRecord with description := some "" }

/-- A service returning the default bucket as a well-formed dict. -/
def svcOther : String → SvcResponse :=
  fun _ => .jsonDict (some "სხვა") (some "")

/-- A row that is an internal-to-internal transfer between two distinct
registry accounts. -/
def recInternal : Record :=
  { blankRecord with
    sourceAccount := some "GE59BG0000000533997843"
    partnerAccount := some "GE21TB7772545167800001"
    description := some "FACEBK donation by ჰერმან საბო" }

/-- A row whose description names an approved withdrawal recipient. -/
def recApproved : Record :=
  { blankRecord with description := some "transfer to ვახტანგი მეგრელიშვილი" }

/-- A row that already carries a category. -/
def recCategorized : Record :=
  { blankRecord with category := some "მერჩი" }

/-- Whitespace as stripped by Python str.strip on the statements' texts. -/
def isPySpace (c : Char) : Bool :=
  c == ' ' || c == '\t' || c == '\n' || c == '\r'

/-- Modelled from the spec: the claim about the resolver speaks of
`partner_account` "as trimmed string"; this is Python str.strip, used only
to state that claim (the source never trims). -/
def pyStrip (s : String) : String :=
  String.mk (((s.data.dropWhile isPySpace).reverse.dropWhile isPySpace).reverse)

/-- The pipeline image of recApproved: classified by the name-list rule and
kept by the restriction filter. -/
def recApprovedFinal : Record :=
  { sourceFile := "x", description := some "transfer to ვახტანგი მეგრელიშვილი"
  , paidOut := none, paidIn := none, partnerAccount := some "nan"
  , partnerName := none, sourceAccount := some ""
  , category := some "გატანილი თანხა"
  , subDescription := some "Name-based mapping rule"
  , internalMap := some "External" }

/-- recD after the resolver and the rule chain (no rule matches it). -/
def recDMid : Record :=
  { blankRecord with
    description := some "d"
    partnerAccount := some "nan"
    sourceAccount := some ""
    internalMap := some "External" }

/-- recD at the end of a run in which the response was unparseable. -/
def recDUncatFinal : Record :=
  { recDMid with category := some "Uncategorized", subDescription := some "" }

/-- The pipeline image of recInternal: auto-classified by the resolver. -/
def recInternalFinal : Record :=
  { sourceFile := "x", description := some "FACEBK donation by ჰერმან საბო"
  , paidOut := none, paidIn := none
  , partnerAccount := some "GE21TB7772545167800001"
  , partnerName := none, sourceAccount := some "GE59BG0000000533997843"
  , category := some "კონვერტაცია"
  , subDescription := some "Internal account transfer"
  , internalMap := some "Internal Transfer" }

/-- The resolver image of recSpacedAccount. -/
def recSpacedFinal : Record :=
  { blankRecord with
    partnerAccount := some " GE59BG0000000533997843"
    sourceAccount := some ""
    internalMap := some "External" }

/-- A row bearing the restricted category with no approved name in its
description. -/
def recGatUnapproved : Record :=
  { blankRecord with category := some "გატანილი თანხა" }

/-- Three unclassified rows sharing two distinct non-null descriptions. -/
def rsShared : List Record :=
  [ { blankRecord with description := some "a" }
  , { blankRecord with description := some "a" }
  , { blankRecord with description := some "b" } ]

/-- The fallback image of rsShared under svcOther. -/
def rsSharedFinal : List Record :=
  [ { blankRecord with
      description := some "a"
      category := some "სხვა"
      subDescription := some "" }
  , { blankRecord with
      description := some "a"
      category := some "სხვა"
      subDescription := some "" }
  , { blankRecord with
      description := some "b"
      category := some "სხვა"
      subDescription := some "" } ]

/-- recEmptyDesc after the resolver, the chain and the fallback stage. -/
def recEmptyDescFinal : Record :=
  { blankRecord with
    description := some ""
    partnerAccount := some "nan"
    sourceAccount := some ""
    internalMap := some "External"
    category := some "Uncategorized"
    subDescription := some "" }

/-! ## The null-to-non-null category trace of one record -/

/-- The per-record stage functions of the whole pipeline after the
internal-transfer resolver, in main's order: the sixteen rule passes, the
fallback application with mappings `m`, and the restriction filter. -/
def postResolverFuns (m : List (String × PyJson)) : List (Record → Record) :=
  recordStageFuns ++ [applyAiR m, gataniliRestrictR]

/-- The successive values of the category cell of one record run through a
list of per-record stage functions, starting value included. -/
def catTrace : List (Record → Record) → Record → List (Option String)
  | [], r => [r.category]
  | g :: funs, r => r.category :: catTrace funs (g r)

/-- The successive values of the category cell of one record across the
pipeline stages after the resolver. -/
def categoryTrace (m : List (String × PyJson)) (r : Record) : List (Option String) :=
  catTrace (postResolverFuns m) r

/-- Does this adjacent pair of trace values witness a null-to-non-null
transition? -/
def nullToSome : Option String → Option String → Bool
  | none, some _ => true
  | _, _ => false

/-- Number of null-to-non-null transitions along a trace. -/
def transitions : List (Option String) → Nat
  | a :: b :: rest => (if nullToSome a b then 1 else 0) + transitions (b :: rest)
  | _ => 0

/-! ## Null-guard lemmas for the individual stages -/

theorem applyRuleR_of_isSome (t : SimpleRule) (r : Record)
    (h : r.category.isSome) : applyRuleR t r = r := by
  obtain ⟨x, hx⟩ := Option.isSome_iff_exists.mp h
  simp [applyRuleR, hx]

theorem applyBtSpecificRulesR_of_isSome (r : Record)
    (h : r.category.isSome) : applyBtSpecificRulesR r = r := by
  obtain ⟨x, hx⟩ := Option.isSome_iff_exists.mp h
  simp [applyBtSpecificRulesR, hx]

theorem applyAiR_of_isSome (m : List (String × PyJson)) (r : Record)
    (h : r.category.isSome) : applyAiR m r = r := by
  obtain ⟨x, hx⟩ := Option.isSome_iff_exists.mp h
  simp [applyAiR, hx]

theorem applyRuleR_fires (t : SimpleRule) (r : Record)
    (h0 : r.category = none) (h1 : t.pred r = true) :
    applyRuleR t r =
      { r with category := some t.cat, subDescription := some t.sub } := by
  simp [applyRuleR, h0, h1]

theorem applyRuleR_of_pred_false (t : SimpleRule) (r : Record)
    (h : t.pred r = false) : applyRuleR t r = r := by
  simp [applyRuleR, h]

theorem gataniliRestrictR_of_ne (r : Record)
    (h : r.category ≠ some "გატანილი თანხა") : gataniliRestrictR r = r := by
  have : (r.category == some "გატანილი თანხა") = false := by
    simpa using h
  simp [gataniliRestrictR, this]

theorem gataniliRestrictR_category_isSome (r : Record)
    (h : r.category.isSome) : (gataniliRestrictR r).category.isSome := by
  unfold gataniliRestrictR
  by_cases hc : r.category == some "გატანილი თანხა"
  · simp only [hc, if_pos]
    by_cases hn : approvedNames.any
        (fun n => containsLit (pyLower n).data (pyLower (pyStr r.description)).data)
    · simp [hn, h]
    · simp [hn]
  · simp [hc, h]

/-! ## Idempotence lemmas -/

theorem applyRuleR_idem (t : SimpleRule) (r : Record) :
    applyRuleR t (applyRuleR t r) = applyRuleR t r := by
  by_cases h : r.category.isNone && t.pred r
  · have : applyRuleR t r =
        { r with category := some t.cat, subDescription := some t.sub } := by
      simp [applyRuleR, h]
    rw [this]
    exact applyRuleR_of_isSome t _ (by simp)
  · have : applyRuleR t r = r := by simp [applyRuleR, h]
    rw [this, this]

theorem applyBtSpecificRulesR_idem (r : Record) :
    applyBtSpecificRulesR (applyBtSpecificRulesR r) = applyBtSpecificRulesR r := by
  by_cases hu : r.category.isNone
  · by_cases htbc : btTbcPred r
    · have : applyBtSpecificRulesR r =
          { r with category := some "ბთ"
                   subDescription := some "BT TBC specific amount income rule" } := by
        by_cases hbog : btBogPred r <;>
          simp [applyBtSpecificRulesR, hu, htbc, hbog]
      rw [this]
      exact applyBtSpecificRulesR_of_isSome _ (by simp)
    · by_cases hbog : btBogPred r
      · have : applyBtSpecificRulesR r =
            { r with category := some "ბთ"
                     subDescription := some "BT BOG 175 GEL income rule" } := by
          simp [applyBtSpecificRulesR, hu, htbc, hbog]
        rw [this]
        exact applyBtSpecificRulesR_of_isSome _ (by simp)
      · have : applyBtSpecificRulesR r = r := by
          simp [applyBtSpecificRulesR, hu, htbc, hbog]
        rw [this, this]
  · have : applyBtSpecificRulesR r = r := by
      simp [applyBtSpecificRulesR, hu]
    rw [this, this]

theorem gataniliRestrictR_idem (r : Record) :
    gataniliRestrictR (gataniliRestrictR r) = gataniliRestrictR r := by
  by_cases hc : r.category == some "გატანილი თანხა"
  · by_cases hn : approvedNames.any
        (fun n => containsLit (pyLower n).data (pyLower (pyStr r.description)).data)
    · have : gataniliRestrictR r = r := by simp [gataniliRestrictR, hc, hn]
      rw [this, this]
    · have h1 : gataniliRestrictR r =
          { r with category := some "სხვა"
                   subDescription := some "გატანილი თანხა restriction applied" } := by
        simp [gataniliRestrictR, hc, hn]
      rw [h1]
      apply gataniliRestrictR_of_ne
      simp
  · have : gataniliRestrictR r = r := by simp [gataniliRestrictR, hc]
    rw [this, this]

/-- Mapping a pointwise-idempotent record function over a frame is
idempotent. -/
theorem map_idem (g : Record → Record) (h : ∀ r, g (g r) = g r) :
    ∀ rs : List Record, (rs.map g).map g = rs.map g := by
  intro rs
  induction rs with
  | nil => rfl
  | cons r rs ih => simp [List.map, h r, ih]

/-! ## The chain as a flat fold of seventeen null-guarded rules -/

/-- The two masks of the BT pass are disjoint: they require different
source files. -/
theorem btPreds_not_both (r : Record) (h : btBogPred r = true) :
    btTbcPred r = false := by
  have hsrc : r.sourceFile = "BT BOG.xlsx" := by
    unfold btBogPred at h
    have h1 : (["BT BOG.xlsx"].contains r.sourceFile) = true :=
      (Bool.and_eq_true_iff.mp
        (Bool.and_eq_true_iff.mp (Bool.and_eq_true_iff.mp h).1).1).1
    have h2 : r.sourceFile ∈ ["BT BOG.xlsx"] := List.elem_iff.mp h1
    simpa using h2
  unfold btTbcPred
  have hc : (["BT TBC GEL.xlsx"].contains r.sourceFile) = false := by
    rw [hsrc]; decide
  rw [hc]
  simp

/-- The BT pass equals its two masks applied as successive null-guarded
rules (legitimate because the masks are disjoint). -/
theorem applyBtSpecificRulesR_split (r : Record) :
    applyBtSpecificRulesR r = applyRuleR btTbcRule (applyRuleR btBogRule r) := by
  by_cases hu : r.category.isNone
  · by_cases hbog : btBogPred r
    · have htbc : btTbcPred r = false := btPreds_not_both r hbog
      have h1 : applyRuleR btBogRule r =
          { r with category := some "ბთ"
                   subDescription := some "BT BOG 175 GEL income rule" } := by
        simp [applyRuleR, btBogRule, hu, hbog]
      rw [h1]
      have h2 := applyRuleR_of_isSome btTbcRule
        { r with category := some "ბთ"
                 subDescription := some "BT BOG 175 GEL income rule" } (by simp)
      rw [h2]
      simp [applyBtSpecificRulesR, hu, hbog, htbc]
    · have h1 : applyRuleR btBogRule r = r := by
        simp [applyRuleR, btBogRule, hbog]
      rw [h1]
      by_cases htbc : btTbcPred r
      · have h2 : applyRuleR btTbcRule r =
            { r with category := some "ბთ"
                     subDescription := some "BT TBC specific amount income rule" } := by
          simp [applyRuleR, btTbcRule, hu, htbc]
        rw [h2]
        simp [applyBtSpecificRulesR, hu, hbog, htbc]
      · have h2 : applyRuleR btTbcRule r = r := by
          simp [applyRuleR, btTbcRule, htbc]
        rw [h2]
        simp [applyBtSpecificRulesR, hu, hbog, htbc]
  · have hs : r.category.isSome := by
      cases h : r.category with
      | none => rw [h] at hu; simp at hu
      | some _ => simp
    rw [applyRuleR_of_isSome btBogRule r hs,
        applyRuleR_of_isSome btTbcRule r hs,
        applyBtSpecificRulesR_of_isSome r hs]

/-- The per-record chain is the left fold of the seventeen-rule table. -/
theorem runChainR_eq_fold (r : Record) :
    runChainR r = ruleTable.foldl (fun r t => applyRuleR t r) r := by
  simp only [runChainR, recordStageFuns, ruleTable, List.foldl]
  rw [applyBtSpecificRulesR_split]

/-- The frame-level chain is the per-record chain mapped over the frame. -/
theorem runChain_eq_map (rs : List Record) :
    runChain rs = rs.map runChainR := by
  simp only [runChain, chainFuns, List.foldl,
    apply_bt_specific_rules, apply_beta_girchi_rule,
    apply_specific_people_gatanili_rule, apply_salary_name_mapping_rule,
    apply_rezervis_tanxa_rule, apply_kkk_salary_rule,
    apply_sakomis_commission_rule, apply_facebook_ads_rule,
    apply_konvertacia_rule, apply_server_services_rule,
    apply_sapensio_salary_rule, apply_montajis_safasuri_rule,
    apply_merchi_keyword_rule, apply_dazgveva_rule,
    apply_mevafinansebbts_rule, apply_utility_companies_rule,
    List.map_map]
  rfl

/-- Folding null-guarded rules over an already-categorized record is the
identity. -/
theorem foldl_applyRule_of_isSome (l : List SimpleRule) (r : Record)
    (h : r.category.isSome) :
    l.foldl (fun r t => applyRuleR t r) r = r := by
  induction l with
  | nil => rfl
  | cons t rest ih =>
    simp only [List.foldl]
    rw [applyRuleR_of_isSome t r h, ih]

/-- First-match-wins over any flat list of null-guarded rules: if the
record is unclassified, every rule before index i fails on it and rule i
matches, the fold writes exactly rule i's labels. -/
theorem foldl_applyRule_first (l : List SimpleRule) (r : Record) (i : ℕ)
    (hi : i < l.length) (hnull : r.category = none)
    (hfirst : ∀ k (hk : k < l.length), k < i → (l.get ⟨k, hk⟩).pred r = false)
    (hA : (l.get ⟨i, hi⟩).pred r = true) :
    l.foldl (fun r t => applyRuleR t r) r =
      { r with category := some (l.get ⟨i, hi⟩).cat
               subDescription := some (l.get ⟨i, hi⟩).sub } := by
  induction l generalizing r i with
  | nil => exact absurd hi (by simp)
  | cons t rest ih =>
    cases i with
    | zero =>
      simp only [List.get] at hA ⊢
      simp only [List.foldl]
      rw [applyRuleR_fires t r hnull hA]
      exact foldl_applyRule_of_isSome rest _ (by simp)
    | succ k =>
      have ht : t.pred r = false := hfirst 0 (by simp) (Nat.succ_pos k)
      simp only [List.foldl]
      rw [applyRuleR_of_pred_false t r ht]
      have hk : k < rest.length := Nat.lt_of_succ_lt_succ hi
      exact ih r k hk hnull
        (fun k' hk' hki =>
          hfirst (k' + 1) (Nat.succ_lt_succ hk') (Nat.succ_lt_succ hki))
        hA

/-! ## Lemmas about the fallback stage -/

theorem mem_uniqFirstAux (l : List String) :
    ∀ (seen : List String) (d : String),
      d ∈ uniqFirstAux seen l ↔ (d ∈ l ∧ d ∉ seen) := by
  induction l with
  | nil => intro seen d; simp [uniqFirstAux]
  | cons e rest ih =>
    intro seen d
    rw [uniqFirstAux]
    by_cases he : e ∈ seen
    · rw [if_pos (List.elem_iff.mpr he), ih seen d]
      constructor
      · rintro ⟨h1, h2⟩
        exact ⟨List.mem_cons_of_mem e h1, h2⟩
      · rintro ⟨h1, h2⟩
        rcases List.mem_cons.mp h1 with rfl | h1
        · exact absurd he h2
        · exact ⟨h1, h2⟩
    · rw [if_neg (fun h => he (List.elem_iff.mp h))]
      constructor
      · intro h1
        rcases List.mem_cons.mp h1 with rfl | h1
        · exact ⟨List.mem_cons_self d rest, he⟩
        · obtain ⟨h2, h3⟩ := (ih (e :: seen) d).mp h1
          exact ⟨List.mem_cons_of_mem e h2,
            fun hm => h3 (List.mem_cons_of_mem e hm)⟩
      · rintro ⟨h1, h2⟩
        rcases List.mem_cons.mp h1 with rfl | h1
        · exact List.mem_cons_self d _
        · by_cases hde : d = e
          · subst hde
            exact List.mem_cons_self d _
          · refine List.mem_cons_of_mem e ((ih (e :: seen) d).mpr ⟨h1, ?_⟩)
            intro hm
            rcases List.mem_cons.mp hm with rfl | hm
            · exact hde rfl
            · exact h2 hm

theorem nodup_uniqFirstAux (l : List String) :
    ∀ seen : List String, (uniqFirstAux seen l).Nodup := by
  induction l with
  | nil => intro seen; simp [uniqFirstAux]
  | cons e rest ih =>
    intro seen
    rw [uniqFirstAux]
    by_cases he : e ∈ seen
    · rw [if_pos (List.elem_iff.mpr he)]; exact ih seen
    · rw [if_neg (fun h => he (List.elem_iff.mp h))]
      refine List.nodup_cons.mpr ⟨?_, ih (e :: seen)⟩
      intro habs
      exact ((mem_uniqFirstAux rest (e :: seen) e).mp habs).2
        (List.mem_cons_self e seen)

/-- Membership in the distinct-description list of the fallback stage. -/
theorem mem_uniqueDescs (rs : List Record) (d : String) :
    d ∈ uniqueDescs rs ↔ ∃ r ∈ rs, r.category = none ∧ r.description = some d := by
  rw [uniqueDescs, mem_uniqFirstAux]
  simp [List.mem_filterMap, List.mem_filter, Option.isNone_iff_eq_none,
    and_assoc]

/-- The distinct-description list has no duplicates. -/
theorem nodup_uniqueDescs (rs : List Record) : (uniqueDescs rs).Nodup :=
  nodup_uniqFirstAux _ []

/-- The invocation count of one get_ai_categorization call: zero exactly
when the description is absent or empty. -/
theorem get_ai_count (svc : String → SvcResponse) (d : String)
    (j : PyJson) (c : Nat)
    (h : get_ai_categorization svc (some d) = .ok (j, c)) :
    c = if d = "" then 0 else 1 := by
  simp only [get_ai_categorization] at h
  by_cases hd : d = ""
  · rw [if_pos hd] at h
    rw [if_pos hd]
    simp_all
  · rw [if_neg hd] at h
    rw [if_neg hd]
    cases hsvc : svc d <;> rw [hsvc] at h <;> simp_all

/-- Total invocation count of the mapping-building comprehension: one call
per non-empty description in the list. -/
theorem buildMappings_count (svc : String → SvcResponse) :
    ∀ (l : List String) (m : List (String × PyJson)) (n : Nat),
      buildMappings svc l = .ok (m, n) →
      n = (l.filter (fun d => !(d == ""))).length := by
  intro l
  induction l with
  | nil =>
    intro m n h
    simp [buildMappings] at h
    simp [h.2]
  | cons d rest ih =>
    intro m n h
    rw [buildMappings] at h
    cases hga : get_ai_categorization svc (some d) with
    | error e => rw [hga] at h; cases h
    | ok p =>
      obtain ⟨j, c⟩ := p
      rw [hga] at h
      cases hbm : buildMappings svc rest with
      | error e => rw [hbm] at h; cases h
      | ok q =>
        obtain ⟨m', t⟩ := q
        rw [hbm] at h
        injection h with h
        injection h with h1 h2
        have hc := get_ai_count svc d j c hga
        have ht := ih m' t hbm
        by_cases hd : d = ""
        · subst h2
          simp [List.filter, hd, hc, ht]
        · subst h2
          have : (d == "") = false := by
            exact beq_eq_false_iff_ne.mpr hd
          simp [List.filter, this, hc, ht, hd, Nat.add_comm]

/-- Every description in the list fed to the comprehension ends up in the
mappings dict, bound to the outcome of its own call. -/
theorem buildMappings_lookup (svc : String → SvcResponse) :
    ∀ (l : List String) (m : List (String × PyJson)) (n : Nat),
      buildMappings svc l = .ok (m, n) →
      ∀ d ∈ l, ∃ j c, get_ai_categorization svc (some d) = .ok (j, c) ∧
        lookupJson m d = some j := by
  intro l
  induction l with
  | nil => intro m n h d hd; cases hd
  | cons e rest ih =>
    intro m n h d hd
    rw [buildMappings] at h
    cases hga : get_ai_categorization svc (some e) with
    | error x => rw [hga] at h; cases h
    | ok p =>
      obtain ⟨j, c⟩ := p
      rw [hga] at h
      cases hbm : buildMappings svc rest with
      | error x => rw [hbm] at h; cases h
      | ok q =>
        obtain ⟨m', t⟩ := q
        rw [hbm] at h
        injection h with h
        injection h with h1 h2
        subst h1
        rcases List.mem_cons.mp hd with rfl | hd
        · exact ⟨j, c, hga, by simp [lookupJson, List.find?]⟩
        · obtain ⟨j', c', hga', hlk⟩ := ih m' t hbm d hd
          by_cases hde : e == d
          · have : e = d := by exact eq_of_beq hde
            subst this
            rw [hga] at hga'
            injection hga' with hga'
            injection hga' with hj hc
            subst hj
            exact ⟨j, c, hga, by simp [lookupJson, List.find?, hde]⟩
          · refine ⟨j', c', hga', ?_⟩
            simp only [lookupJson, List.find?, hde] at hlk ⊢
            exact hlk

/-- Destructor for a successful pipeline run: the output is the restriction
filter applied to the fallback-stage image of the chain output, for the
mappings the comprehension built. -/
theorem aiStage_ok (svc : String → SvcResponse) (rs out : List Record)
    (n : Nat) (hai : aiStage svc rs = .ok (out, n)) :
    ∃ m, buildMappings svc (uniqueDescs rs) = .ok (m, n) ∧
      out = rs.map (applyAiR m) := by
  unfold aiStage at hai
  cases hbm : buildMappings svc (uniqueDescs rs) with
  | error e =>
    cases e
    rw [hbm] at hai
    cases hai
  | ok p =>
    obtain ⟨m, k⟩ := p
    rw [hbm] at hai
    injection hai with hai
    injection hai with h1 h2
    subst h2
    exact ⟨m, rfl, h1.symm⟩

theorem runPipeline_ok (svc : String → SvcResponse) (h : Bool)
    (rs out : List Record) (hok : runPipeline svc h rs = .ok out) :
    ∃ m n,
      buildMappings svc
        (uniqueDescs (runChain (map_internal_transfers INTERNAL_ACCOUNTS h rs)))
        = .ok (m, n) ∧
      out = apply_gatanili_tanxa_restrictions
        ((runChain (map_internal_transfers INTERNAL_ACCOUNTS h rs)).map
          (applyAiR m)) := by
  simp only [runPipeline] at hok
  generalize hmid :
    runChain (map_internal_transfers INTERNAL_ACCOUNTS h rs) = mid at hok ⊢
  cases haim : aiStage svc mid with
  | error e =>
    cases e
    rw [haim] at hok
    cases hok
  | ok p =>
    obtain ⟨rs3, n⟩ := p
    rw [haim] at hok
    obtain ⟨m, hbm, hout⟩ := aiStage_ok svc mid rs3 n haim
    refine ⟨m, n, hbm, ?_⟩
    have hrestr : apply_gatanili_tanxa_restrictions rs3 = out := by
      injection hok
    rw [← hrestr, hout]

/-! ## Counting null-to-non-null category transitions -/

/-- Each of the sixteen rule passes leaves an already-categorized record
untouched. -/
theorem recordStage_of_isSome :
    ∀ g ∈ recordStageFuns, ∀ s : Record, s.category.isSome → g s = s := by
  intro g hg s hs
  simp only [recordStageFuns, List.mem_cons, List.not_mem_nil, or_false] at hg
  rcases hg with rfl | rfl | rfl | rfl | rfl | rfl | rfl | rfl | rfl | rfl
    | rfl | rfl | rfl | rfl | rfl | rfl
  · exact applyBtSpecificRulesR_of_isSome s hs
  all_goals exact applyRuleR_of_isSome _ s hs

/-- Every post-resolver stage maps a non-null category cell to a non-null
category cell. -/
theorem postResolver_cat_isSome (m : List (String × PyJson)) :
    ∀ g ∈ postResolverFuns m, ∀ r : Record,
      r.category.isSome → ((g r).category).isSome := by
  intro g hg r hr
  rcases List.mem_append.mp hg with hg | hg
  · rw [recordStage_of_isSome g hg r hr]; exact hr
  · rcases List.mem_cons.mp hg with rfl | hg
    · rw [applyAiR_of_isSome m r hr]; exact hr
    · rcases List.mem_cons.mp hg with rfl | hg
      · exact gataniliRestrictR_category_isSome r hr
      · cases hg

/-- A trace started on a non-null category under category-monotone stages
has no null-to-non-null transition at all. -/
theorem transitions_catTrace_zero (funs : List (Record → Record))
    (hmono : ∀ g ∈ funs, ∀ r : Record, r.category.isSome → ((g r).category).isSome)
    (r : Record) (hr : r.category.isSome) :
    transitions (catTrace funs r) = 0 := by
  induction funs generalizing r with
  | nil => rfl
  | cons g funs ih =>
    have hgr : ((g r).category).isSome :=
      hmono g (List.mem_cons_self g funs) r hr
    have htail := ih
      (fun g' hg' => hmono g' (List.mem_cons_of_mem g hg')) (g r) hgr
    obtain ⟨x, hx⟩ := Option.isSome_iff_exists.mp hr
    cases funs with
    | nil =>
      obtain ⟨y, hy⟩ := Option.isSome_iff_exists.mp hgr
      show transitions [r.category, (g r).category] = 0
      rw [hx, hy]
      rfl
    | cons g2 funs2 =>
      have step : transitions (catTrace (g :: g2 :: funs2) r)
          = (if nullToSome r.category ((g r).category) then 1 else 0)
            + transitions (catTrace (g2 :: funs2) (g r)) := rfl
      rw [step, htail, hx]
      simp [nullToSome]

/-- Under category-monotone stages, a record's trace has at most one
null-to-non-null transition. -/
theorem transitions_catTrace_le_one (funs : List (Record → Record))
    (hmono : ∀ g ∈ funs, ∀ r : Record, r.category.isSome → ((g r).category).isSome)
    (r : Record) :
    transitions (catTrace funs r) ≤ 1 := by
  induction funs generalizing r with
  | nil => exact Nat.zero_le 1
  | cons g funs ih =>
    have hmono' : ∀ g' ∈ funs, ∀ s : Record,
        s.category.isSome → ((g' s).category).isSome :=
      fun g' hg' => hmono g' (List.mem_cons_of_mem g hg')
    cases funs with
    | nil =>
      have step : transitions (catTrace [g] r)
          = (if nullToSome r.category ((g r).category) then 1 else 0) + 0 := rfl
      rw [step]
      split <;> simp
    | cons g2 funs2 =>
      have step : transitions (catTrace (g :: g2 :: funs2) r)
          = (if nullToSome r.category ((g r).category) then 1 else 0)
            + transitions (catTrace (g2 :: funs2) (g r)) := rfl
      rw [step]
      by_cases hns : nullToSome r.category ((g r).category) = true
      · have hgr : ((g r).category).isSome := by
          cases hc2 : (g r).category with
          | none =>
            rw [hc2] at hns
            cases hc : r.category <;> rw [hc] at hns <;> cases hns
          | some _ => simp
        have hz := transitions_catTrace_zero (g2 :: funs2) hmono' (g r) hgr
        rw [hns, hz]
        simp
      · have ht := ih hmono' (g r)
        rw [if_neg hns]
        simpa using ht

/-- A record the restriction filter changes must have carried the
restricted category, and it is demoted to the default bucket. -/
theorem gataniliRestrictR_ne_dest (s : Record)
    (hne : gataniliRestrictR s ≠ s) :
    s.category = some "გატანილი თანხა"
      ∧ (gataniliRestrictR s).category = some "სხვა" := by
  by_cases hc : s.category == some "გატანილი თანხა"
  · refine ⟨eq_of_beq hc, ?_⟩
    by_cases hn : approvedNames.any
        (fun n => containsLit (pyLower n).data (pyLower (pyStr s.description)).data)
    · exact absurd (by simp [gataniliRestrictR, hc, hn]) hne
    · simp [gataniliRestrictR, hc, hn]
  · exact absurd (gataniliRestrictR_of_ne s (fun habs => hc (by simp [habs]))) hne

/-! ## The claims -/

/-- C1: the claim says every record ends with non-null category and
non-null internal_map for every service behaviour, including responses that
parse as JSON but lack a 'category' field.  The code violates this: on a
response parsing to a dict without 'category', main writes
x.get('category'), which is None, into the category column.  This theorem
evaluates the pipeline at such an input: the run returns, internal_map is
set, yet the record's category is still null. -/
theorem c1_category_left_null :
    (runPipeline svcEmptyDict false [recD]).toOption.map
        (List.map Record.category) = some [none]
    ∧ (runPipeline svcEmptyDict false [recD]).toOption.map
        (List.map Record.internalMap) = some [some "External"] := by
  constructor <;> rfl

/-- C2 counterexample: the claim puts the Restriction Post-Filter before
the fallback classifier.  On a record no deterministic rule matches, with a
service answering the restricted category, the orchestrator as written
(fallback first, restriction last) demotes the record to 'სხვა', while the
claimed order would leave 'გატანილი თანხა'; the two pipelines disagree. -/
theorem c2_spec_order_refuted :
    (runPipeline svcGatanili false [recPlain]).toOption.map
        (List.map Record.category)
    ≠ (specOrderedPipeline svcGatanili false [recPlain]).toOption.map
        (List.map Record.category) := by
  decide

/-- C2 (amended): the orchestrator runs the resolver, then the sixteen-rule
chain, then the fallback classifier, and the Restriction Post-Filter
strictly last; consequently every record of a completed run that still
bears the restricted category names an approved recipient in its
description. -/
theorem c2_stage_order (svc : String → SvcResponse) (h : Bool)
    (rs : List Record) :
    (runPipeline svc h rs =
      (match aiStage svc (runChain (map_internal_transfers INTERNAL_ACCOUNTS h rs)) with
        | Except.error _ => Except.error ()
        | Except.ok (rs3, _) => Except.ok (apply_gatanili_tanxa_restrictions rs3)))
    ∧ ∀ out, runPipeline svc h rs = .ok out →
        ∀ r' ∈ out, r'.category = some "გატანილი თანხა" →
          approvedNames.any (fun n =>
            containsLit (pyLower n).data (pyLower (pyStr r'.description)).data)
            = true := by
  constructor
  · simp only [runPipeline]
    generalize aiStage svc (runChain (map_internal_transfers INTERNAL_ACCOUNTS h rs)) = res
    cases res with
    | error e => cases e; rfl
    | ok p => obtain ⟨rs3, n⟩ := p; rfl
  · intro out hok r' hr' hcat
    obtain ⟨m, n, hbm, hout⟩ := runPipeline_ok svc h rs out hok
    subst hout
    simp only [apply_gatanili_tanxa_restrictions] at hr'
    obtain ⟨s, hs, rfl⟩ := List.mem_map.mp hr'
    by_cases hc : s.category == some "გატანილი თანხა"
    · by_cases hn : approvedNames.any
          (fun n => containsLit (pyLower n).data (pyLower (pyStr s.description)).data)
      · have hid : gataniliRestrictR s = s := by simp [gataniliRestrictR, hc, hn]
        rw [hid]
        exact hn
      · have hdem : gataniliRestrictR s =
            { s with category := some "სხვა"
                     subDescription := some "გატანილი თანხა restriction applied" } := by
          simp [gataniliRestrictR, hc, hn]
        rw [hdem] at hcat
        have hcat' : (some "სხვა" : Option String) = some "გატანილი თანხა" := hcat
        exact absurd hcat' (by decide)
    · have hid : gataniliRestrictR s = s :=
        gataniliRestrictR_of_ne s (fun habs => hc (by simp [habs]))
      rw [hid] at hcat
      exact absurd (by simp [hcat] : (s.category == some "გატანილი თანხა") = true) hc

/-- Witness for C2 (amended): a concrete completed run whose output record
bears the restricted category, to which the theorem applies. -/
theorem c2_stage_order_witness :
    approvedNames.any (fun n =>
      containsLit (pyLower n).data
        (pyLower (pyStr recApprovedFinal.description)).data) = true :=
  (c2_stage_order svcGatanili false [recApproved]).2 [recApprovedFinal]
    (by rfl) recApprovedFinal (List.mem_singleton.mpr rfl) rfl

/-- C3 counterexample: the claim says a failing service call never aborts
the run, for every possible exception of the service client.  Only the
v1-client call is inside a try/except; when the legacy fallback call raises
too, the exception escapes get_ai_categorization and aborts main: the
pipeline returns an error on this input. -/
theorem c3_abort_on_client_failure :
    runPipeline svcFails false [recD] = .error () := by rfl

/-- When the response content for a description is unparseable,
get_ai_categorization hands back the default dict. -/
theorem get_ai_unparseable (svc : String → SvcResponse) (d : String)
    (j : PyJson) (c : Nat)
    (hga : get_ai_categorization svc (some d) = .ok (j, c))
    (hsvc : svc d = .unparseable) : j = defaultJson := by
  simp only [get_ai_categorization] at hga
  by_cases hde : d = ""
  · rw [if_pos hde] at hga
    injection hga with hga
    exact (congrArg Prod.fst hga).symm
  · rw [if_neg hde, hsvc] at hga
    injection hga with hga
    exact (congrArg Prod.fst hga).symm

/-- C3 (amended): a response whose content cannot be parsed as the expected
two-field result is localized: the affected description's records end with
category 'Uncategorized' and empty sub-category, and such a run completes;
only an exception raised by both client call paths aborts the run. -/
theorem c3_unparseable_localized (svc : String → SvcResponse) (h : Bool)
    (rs out : List Record) (hok : runPipeline svc h rs = .ok out)
    (r : Record)
    (hr : r ∈ runChain (map_internal_transfers INTERNAL_ACCOUNTS h rs))
    (hcat : r.category = none) (d : String) (hd : r.description = some d)
    (hsvc : svc d = .unparseable) :
    ∃ r' ∈ out, r'.description = some d ∧ r'.category = some "Uncategorized"
      ∧ r'.subDescription = some "" := by
  obtain ⟨m, n, hbm, hout⟩ := runPipeline_ok svc h rs out hok
  subst hout
  have hdmem : d ∈ uniqueDescs (runChain (map_internal_transfers INTERNAL_ACCOUNTS h rs)) :=
    (mem_uniqueDescs _ d).mpr ⟨r, hr, hcat, hd⟩
  obtain ⟨j, c, hga, hlk⟩ := buildMappings_lookup svc _ m n hbm d hdmem
  have hj : j = defaultJson := get_ai_unparseable svc d j c hga hsvc
  subst hj
  have hai : applyAiR m r =
      { r with category := some "Uncategorized", subDescription := some "" } := by
    simp [applyAiR, hcat, hd, hlk, defaultJson]
  refine ⟨gataniliRestrictR (applyAiR m r), ?_, ?_⟩
  · simp only [apply_gatanili_tanxa_restrictions]
    exact List.mem_map_of_mem _ (List.mem_map_of_mem _ hr)
  · have hrestrict : gataniliRestrictR (applyAiR m r) = applyAiR m r := by
      apply gataniliRestrictR_of_ne
      rw [hai]
      simp
    rw [hrestrict, hai]
    exact ⟨hd, rfl, rfl⟩

/-- Witness for C3 (amended): a concrete run with an unparseable response
for description "d". -/
theorem c3_unparseable_witness :
    ∃ r' ∈ [recDUncatFinal], r'.description = some "d"
      ∧ r'.category = some "Uncategorized" ∧ r'.subDescription = some "" :=
  c3_unparseable_localized svcUnparseable false [recD] [recDUncatFinal]
    (by rfl) recDMid (by decide) rfl "d" rfl rfl

/-- C4: after the resolver, category goes null-to-non-null at most once:
every rule pass and the fallback stage leave an already-categorized record
untouched, a record the restriction filter does change carried
'გატანილი თანხა' and is demoted to 'სხვა', and the full post-resolver trace
of any record has at most one null-to-non-null transition. -/
theorem c4_null_guard_discipline (m : List (String × PyJson)) (r : Record) :
    (∀ g ∈ recordStageFuns, ∀ s : Record, s.category.isSome → g s = s)
    ∧ (∀ s : Record, s.category.isSome → applyAiR m s = s)
    ∧ (∀ s : Record, gataniliRestrictR s ≠ s →
        s.category = some "გატანილი თანხა"
          ∧ (gataniliRestrictR s).category = some "სხვა")
    ∧ transitions (categoryTrace m r) ≤ 1 :=
  ⟨recordStage_of_isSome, fun s hs => applyAiR_of_isSome m s hs,
    gataniliRestrictR_ne_dest,
    transitions_catTrace_le_one _ (postResolver_cat_isSome m) r⟩

/-- Witness for C4: a categorized record is untouched by a rule pass, and a
blank record's trace has at most one transition. -/
theorem c4_witness :
    applyRuleR kkkRule recCategorized = recCategorized
    ∧ transitions (categoryTrace [] blankRecord) ≤ 1 :=
  ⟨(c4_null_guard_discipline [] blankRecord).1 (applyRuleR kkkRule)
      (by simp [recordStageFuns]) recCategorized rfl,
    (c4_null_guard_discipline [] blankRecord).2.2.2⟩

/-- C5: a record whose source and partner accounts are distinct registry
members (partner neither empty nor the 'nan' sentinel) is forced by the
resolver to 'კონვერტაცია' with sub-category 'Internal account transfer',
overwriting any prior value, and a record with these labels survives to the
end of every completed run. -/
theorem c5_internal_transfer_precedence (svc : String → SvcResponse)
    (rs out : List Record) (r : Record)
    (hok : runPipeline svc true rs = .ok out) (hr : r ∈ rs)
    (hsa : INTERNAL_ACCOUNTS.contains (pyStr r.sourceAccount) = true)
    (hpa : INTERNAL_ACCOUNTS.contains (pyStr r.partnerAccount) = true)
    (hnan : pyStr r.partnerAccount ≠ "nan")
    (hemp : pyStr r.partnerAccount ≠ "")
    (hne : pyStr r.sourceAccount ≠ pyStr r.partnerAccount) :
    (mapInternalTransfersR INTERNAL_ACCOUNTS true r).category
        = some "კონვერტაცია"
    ∧ (mapInternalTransfersR INTERNAL_ACCOUNTS true r).subDescription
        = some "Internal account transfer"
    ∧ ∃ r' ∈ out, r'.category = some "კონვერტაცია"
        ∧ r'.subDescription = some "Internal account transfer" := by
  have hsa' : pyStr r.sourceAccount ∈ INTERNAL_ACCOUNTS := List.elem_iff.mp hsa
  have hpa' : pyStr r.partnerAccount ∈ INTERNAL_ACCOUNTS := List.elem_iff.mp hpa
  have hres : mapInternalTransfersR INTERNAL_ACCOUNTS true r =
      { r with
        partnerAccount := some (pyStr r.partnerAccount)
        sourceAccount := some (pyStr r.sourceAccount)
        internalMap := some (if INTERNAL_ACCOUNTS.contains (pyStr r.partnerAccount)
          then "Internal Transfer" else "External")
        category := some "კონვერტაცია"
        subDescription := some "Internal account transfer" } := by
    simp [mapInternalTransfersR, hsa', hpa', hnan, hemp, hne]
  refine ⟨by rw [hres], by rw [hres], ?_⟩
  obtain ⟨m, n, hbm, hout⟩ := runPipeline_ok svc true rs out hok
  subst hout
  have h1 : (mapInternalTransfersR INTERNAL_ACCOUNTS true r).category.isSome := by
    rw [hres]; rfl
  have hchain : runChainR (mapInternalTransfersR INTERNAL_ACCOUNTS true r)
      = mapInternalTransfersR INTERNAL_ACCOUNTS true r := by
    rw [runChainR_eq_fold]
    exact foldl_applyRule_of_isSome _ _ h1
  have hai : applyAiR m (mapInternalTransfersR INTERNAL_ACCOUNTS true r)
      = mapInternalTransfersR INTERNAL_ACCOUNTS true r :=
    applyAiR_of_isSome m _ h1
  have hrestr : gataniliRestrictR (mapInternalTransfersR INTERNAL_ACCOUNTS true r)
      = mapInternalTransfersR INTERNAL_ACCOUNTS true r := by
    apply gataniliRestrictR_of_ne
    rw [hres]
    simp
  refine ⟨mapInternalTransfersR INTERNAL_ACCOUNTS true r, ?_,
    by rw [hres], by rw [hres]⟩
  have m1 : mapInternalTransfersR INTERNAL_ACCOUNTS true r
      ∈ map_internal_transfers INTERNAL_ACCOUNTS true rs :=
    List.mem_map_of_mem _ hr
  have m2 : mapInternalTransfersR INTERNAL_ACCOUNTS true r
      ∈ runChain (map_internal_transfers INTERNAL_ACCOUNTS true rs) := by
    rw [runChain_eq_map]
    have := List.mem_map_of_mem runChainR m1
    rwa [hchain] at this
  have m3 : mapInternalTransfersR INTERNAL_ACCOUNTS true r
      ∈ (runChain (map_internal_transfers INTERNAL_ACCOUNTS true rs)).map
          (applyAiR m) := by
    have := List.mem_map_of_mem (applyAiR m) m2
    rwa [hai] at this
  simp only [apply_gatanili_tanxa_restrictions]
  have := List.mem_map_of_mem gataniliRestrictR m3
  rwa [hrestr] at this

/-- Witness for C5: a concrete internal-to-internal transfer record. -/
theorem c5_witness :
    (mapInternalTransfersR INTERNAL_ACCOUNTS true recInternal).category
        = some "კონვერტაცია"
    ∧ (mapInternalTransfersR INTERNAL_ACCOUNTS true recInternal).subDescription
        = some "Internal account transfer"
    ∧ ∃ r' ∈ [recInternalFinal], r'.category = some "კონვერტაცია"
        ∧ r'.subDescription = some "Internal account transfer" :=
  c5_internal_transfer_precedence svcGatanili [recInternal] [recInternalFinal]
    recInternal (by rfl) (List.mem_singleton.mpr rfl) (by decide) (by decide)
    (by decide) (by decide) (by decide)

/-- C6 counterexample: the claim says internal_map is 'Internal Transfer'
iff the trimmed partner account is a registry member.  The code never
trims: on a partner account equal to a registry member with a leading
space, the trimmed string is in the registry but the resolver writes
'External', refuting the claimed equivalence. -/
theorem c6_trim_refuted :
    ¬ (∀ r' ∈ map_internal_transfers INTERNAL_ACCOUNTS false [recSpacedAccount],
        (r'.internalMap = some "Internal Transfer" ↔
          pyStrip (pyStr r'.partnerAccount) ∈ INTERNAL_ACCOUNTS)) := by
  decide

/-- C6 (amended): the resolver sets internal_map to 'Internal Transfer' iff
the partner account, passed through astype(str) without trimming, is a
registry member, and to 'External' otherwise. -/
theorem c6_internal_map_untrimmed (registry : List String) (h : Bool)
    (rs : List Record) :
    ∀ r' ∈ map_internal_transfers registry h rs,
      r'.internalMap = some (if registry.contains (pyStr r'.partnerAccount)
        then "Internal Transfer" else "External") := by
  intro r' hr'
  obtain ⟨r, hr, rfl⟩ := List.mem_map.mp hr'
  simp only [mapInternalTransfersR]
  by_cases hg : (registry.contains (if h then pyStr r.sourceAccount else "")
      && registry.contains (pyStr r.partnerAccount)
      && (pyStr r.partnerAccount != "nan")
      && (pyStr r.partnerAccount != "")
      && ((if h then pyStr r.sourceAccount else "") != pyStr r.partnerAccount)) = true
  · rw [if_pos hg]
    simp [pyStr]
  · rw [if_neg hg]
    simp [pyStr]

/-- Witness for C6 (amended): the spaced partner account resolves to
'External'. -/
theorem c6_untrimmed_witness :
    recSpacedFinal.internalMap =
      some (if INTERNAL_ACCOUNTS.contains (pyStr recSpacedFinal.partnerAccount)
        then "Internal Transfer" else "External") :=
  c6_internal_map_untrimmed INTERNAL_ACCOUNTS false [recSpacedAccount]
    recSpacedFinal (by decide)

/-- C7: first-match-wins over the seventeen-rule table in the
orchestrator's order: if a record is unclassified at chain entry, no rule
before index i matches it, rule i matches it and a later rule j also
matches it, the chain ends with rule i's category and sub-tag, not rule
j's. -/
theorem c7_first_match_wins (r : Record) (i j : Fin ruleTable.length)
    (hij : i.val < j.val) (hnull : r.category = none)
    (hfirst : ∀ k : Fin ruleTable.length, k.val < i.val →
      (ruleTable.get k).pred r = false)
    (hA : (ruleTable.get i).pred r = true)
    (hB : (ruleTable.get j).pred r = true) :
    (runChainR r).category = some (ruleTable.get i).cat
    ∧ (runChainR r).subDescription = some (ruleTable.get i).sub := by
  have h := foldl_applyRule_first ruleTable r i.val i.isLt hnull
    (fun k hk hki => hfirst ⟨k, hk⟩ hki) hA
  rw [runChainR_eq_fold, h]
  exact ⟨rfl, rfl⟩

/-- Witness for C7: a record matching both the FACEBK rule (index 8) and
the later კონვერტაცია rule (index 9) ends with the FACEBK rule's labels. -/
theorem c7_witness :
    (runChainR recTwoRules).category
        = some (ruleTable.get ⟨8, by decide⟩).cat
    ∧ (runChainR recTwoRules).subDescription
        = some (ruleTable.get ⟨8, by decide⟩).sub :=
  c7_first_match_wins recTwoRules ⟨8, by decide⟩ ⟨9, by decide⟩
    (by decide) rfl (by decide) (by decide) (by decide)

/-- C8: the Restriction Post-Filter is idempotent on every record set, and
on a record bearing 'გატანილი თანხა' whose lower-cased description contains
none of the four approved names it writes 'სხვა' with the fixed
restriction sub-tag. -/
theorem c8_restriction_idempotent :
    (∀ rs : List Record,
      apply_gatanili_tanxa_restrictions (apply_gatanili_tanxa_restrictions rs)
        = apply_gatanili_tanxa_restrictions rs)
    ∧ (∀ r : Record, r.category = some "გატანილი თანხა" →
        approvedNames.any (fun n =>
          containsLit (pyLower n).data (pyLower (pyStr r.description)).data)
          = false →
        gataniliRestrictR r =
          { r with category := some "სხვა"
                   subDescription := some "გატანილი თანხა restriction applied" }) := by
  constructor
  · intro rs
    simp only [apply_gatanili_tanxa_restrictions]
    exact map_idem gataniliRestrictR gataniliRestrictR_idem rs
  · intro r hc hn
    simp [gataniliRestrictR, hc, hn]

/-- Witness for C8: a restricted-category record with no approved name. -/
theorem c8_witness :
    apply_gatanili_tanxa_restrictions
        (apply_gatanili_tanxa_restrictions [recGatUnapproved])
      = apply_gatanili_tanxa_restrictions [recGatUnapproved]
    ∧ gataniliRestrictR recGatUnapproved =
        { recGatUnapproved with
          category := some "სხვა"
          subDescription := some "გატანილი თანხა restriction applied" } :=
  ⟨c8_restriction_idempotent.1 [recGatUnapproved],
    c8_restriction_idempotent.2 recGatUnapproved rfl (by decide)⟩

/-- C9: applying any single rule pass of the chain twice to any record set
equals applying it once. -/
theorem c9_rule_idempotent :
    ∀ f ∈ chainFuns, ∀ rs : List Record, f (f rs) = f rs := by
  intro f hf rs
  simp only [chainFuns, List.mem_cons, List.not_mem_nil, or_false] at hf
  rcases hf with rfl | rfl | rfl | rfl | rfl | rfl | rfl | rfl | rfl | rfl
    | rfl | rfl | rfl | rfl | rfl | rfl
  · simp only [apply_bt_specific_rules]
    exact map_idem _ applyBtSpecificRulesR_idem rs
  all_goals
    simp only [apply_beta_girchi_rule, apply_specific_people_gatanili_rule,
      apply_salary_name_mapping_rule, apply_rezervis_tanxa_rule,
      apply_kkk_salary_rule, apply_sakomis_commission_rule,
      apply_facebook_ads_rule, apply_konvertacia_rule,
      apply_server_services_rule, apply_sapensio_salary_rule,
      apply_montajis_safasuri_rule, apply_merchi_keyword_rule,
      apply_dazgveva_rule, apply_mevafinansebbts_rule,
      apply_utility_companies_rule]
  all_goals exact map_idem _ (applyRuleR_idem _) rs

/-- Witness for C9: one rule pass applied twice to a concrete frame. -/
theorem c9_witness :
    apply_kkk_salary_rule (apply_kkk_salary_rule [blankRecord])
      = apply_kkk_salary_rule [blankRecord] :=
  c9_rule_idempotent apply_kkk_salary_rule (by simp [chainFuns]) [blankRecord]

/-- C10 counterexample: the claim says the service is invoked exactly once
per distinct non-null description of the still-unclassified records.  The
empty string is a non-null description, yet get_ai_categorization returns
its default for it without any service call: here M = 1 distinct non-null
description but the stage makes 0 invocations. -/
theorem c10_empty_description_refuted :
    (uniqueDescs (runChain
        (map_internal_transfers INTERNAL_ACCOUNTS false [recEmptyDesc]))).length = 1
    ∧ aiStage svcOther (runChain
        (map_internal_transfers INTERNAL_ACCOUNTS false [recEmptyDesc]))
      = .ok ([recEmptyDescFinal], 0) := by
  constructor <;> rfl

/-- C10 (amended): the fallback stage invokes the service exactly once per
distinct non-null non-empty description of the still-unclassified records
(the empty description is classified to the default without a call); the
distinct-description list has no duplicates and consists exactly of the
non-null descriptions of unclassified records, and the stage applies the
cached mappings to the whole frame. -/
theorem c10_dedup_call_count (svc : String → SvcResponse)
    (rs out : List Record) (n : Nat) (hai : aiStage svc rs = .ok (out, n)) :
    n = ((uniqueDescs rs).filter (fun d => !(d == ""))).length
    ∧ (uniqueDescs rs).Nodup
    ∧ (∀ d, d ∈ uniqueDescs rs ↔
        ∃ r ∈ rs, r.category = none ∧ r.description = some d)
    ∧ ∃ m, buildMappings svc (uniqueDescs rs) = .ok (m, n)
        ∧ out = rs.map (applyAiR m) := by
  obtain ⟨m, hbm, hout⟩ := aiStage_ok svc rs out n hai
  exact ⟨buildMappings_count svc _ m n hbm, nodup_uniqueDescs rs,
    fun d => mem_uniqueDescs rs d, m, hbm, hout⟩

/-- Witness for C10 (amended): three unclassified records sharing two
distinct descriptions cost exactly two invocations. -/
theorem c10_dedup_witness :
    (2 : Nat) = ((uniqueDescs rsShared).filter (fun d => !(d == ""))).length :=
  (c10_dedup_call_count svcOther rsShared rsSharedFinal 2 (by rfl)).1

end GirchiFin
